import Mathlib

/-!
# Verification of the vehicle-manage WebSocket client examples

A shallow embedding of the Python WebSocket clients in
`src/python_examples/advanced_ai_server.py` (class `WebSocketClient`) and
`src/python_examples/simple_client.py` (class `SimpleLicensePlateClient`),
together with a character-level model of the JSON wire codec the code
realises with `json.dumps` / `json.loads`.

The embedding keeps the source's names where Lean allows it
(`connect`, `send_message`, `listen_for_commands`, `handle_command`,
`disconnect`, `reconnect`).  Machine-level effects (transport operations,
sleeps, logging) are made observable through an explicit `Effect` trace, and
Python exception flow through the `PyResult` type with explicit
`try`/`except` combinators.
-/

namespace VehicleManage

/-! ## JSON values

The wire format of both clients is a single JSON document per frame,
produced by `json.dumps` and read back by `json.loads`.  Numbers are
modelled as decimal fixed-point values `mantissa / 10 ^ exp10` (all numeric
literals the producers emit are finite decimals); strings and object keys
are Lean `String`s. -/

inductive Json where
  | null : Json
  | bool (b : Bool) : Json
  | num (mantissa : Int) (exp10 : Nat) : Json
  | str (s : String) : Json
  | arr (elems : List Json) : Json
  | obj (fields : List (String × Json)) : Json

/-! ### Decimal digit strings -/

/-- Decimal digits of a natural number, most significant first. -/
def natToChars (n : Nat) : List Char :=
  if _h : n < 10 then [Nat.digitChar n]
  else natToChars (n / 10) ++ [Nat.digitChar (n % 10)]
decreasing_by exact Nat.div_lt_self (by omega) (by norm_num)

/-- Numeric value of one decimal digit character. -/
def digitVal (c : Char) : Nat := c.toNat - 48

/-- Accumulate decimal digit characters into a natural number. -/
def foldDigits (cs : List Char) : Nat :=
  List.foldl (fun acc c => acc * 10 + digitVal c) 0 cs

theorem digitChar_isDigit {d : Nat} (h : d < 10) : (Nat.digitChar d).isDigit = true := by
  interval_cases d <;> decide

theorem digitVal_digitChar {d : Nat} (h : d < 10) : digitVal (Nat.digitChar d) = d := by
  interval_cases d <;> decide

theorem natToChars_ne_nil (n : Nat) : natToChars n ≠ [] := by
  unfold natToChars
  split <;> simp

theorem natToChars_all_digits (n : Nat) : ∀ c ∈ natToChars n, c.isDigit = true := by
  induction n using Nat.strong_induction_on with
  | _ n ih =>
    unfold natToChars
    split
    next h =>
      intro c hc
      simp at hc
      subst hc
      exact digitChar_isDigit h
    next h =>
      intro c hc
      simp at hc
      rcases hc with hc | hc
      · exact ih (n / 10) (Nat.div_lt_self (by omega) (by norm_num)) c hc
      · subst hc
        exact digitChar_isDigit (Nat.mod_lt _ (by norm_num))

theorem foldDigits_append (xs ys : List Char) :
    foldDigits (xs ++ ys) =
      List.foldl (fun acc c => acc * 10 + digitVal c) (foldDigits xs) ys := by
  simp [foldDigits, List.foldl_append]

theorem foldl_digits_acc (cs : List Char) (a : Nat) :
    List.foldl (fun acc c => acc * 10 + digitVal c) a cs =
      a * 10 ^ cs.length + foldDigits cs := by
  induction cs generalizing a with
  | nil => simp [foldDigits]
  | cons c cs ih =>
    have h1 : foldDigits (c :: cs) = digitVal c * 10 ^ cs.length + foldDigits cs := by
      have h2 := ih (0 * 10 + digitVal c)
      simpa [foldDigits] using h2
    simp only [List.foldl_cons, List.length_cons]
    rw [ih (a * 10 + digitVal c), h1]
    ring

theorem foldDigits_natToChars (n : Nat) : foldDigits (natToChars n) = n := by
  induction n using Nat.strong_induction_on with
  | _ n ih =>
    unfold natToChars
    split
    next h => simp [foldDigits, digitVal_digitChar h]
    next h =>
      rw [foldDigits_append]
      simp only [List.foldl_cons, List.foldl_nil]
      rw [ih (n / 10) (Nat.div_lt_self (by omega) (by norm_num))]
      rw [digitVal_digitChar (Nat.mod_lt _ (by norm_num))]
      omega

/-! ### JSON string literals

`json.dumps` escapes the quote, the backslash and control characters; all
other characters pass through.  (`json.dumps` additionally writes non-ASCII
characters as escapes, and `json.loads` accepts both spellings, so eliding
that detail does not affect the round trip.) -/

/-- Escape one character of a JSON string literal. -/
def escapeChar (c : Char) : List Char :=
  if c = '"' then ['\\', '"']
  else if c = '\\' then ['\\', '\\']
  else if c.toNat < 32 then
    ['\\', 'u', '0', '0', Nat.digitChar (c.toNat / 16), Nat.digitChar (c.toNat % 16)]
  else [c]

/-- Escape the body of a JSON string literal. -/
def escapeString : List Char → List Char
  | [] => []
  | c :: cs => escapeChar c ++ escapeString cs

/-- Value of a hexadecimal digit character, if it is one. -/
def hexVal? (c : Char) : Option Nat :=
  if 48 ≤ c.toNat ∧ c.toNat ≤ 57 then some (c.toNat - 48)
  else if 97 ≤ c.toNat ∧ c.toNat ≤ 102 then some (c.toNat - 87)
  else if 65 ≤ c.toNat ∧ c.toNat ≤ 70 then some (c.toNat - 55)
  else none

mutual

/-- Read the body of a JSON string literal up to and including the closing
quote; returns the unescaped content and the remaining input. -/
def parseStrBody : List Char → Option (List Char × List Char)
  | [] => none
  | c :: rest =>
    if c = '"' then some ([], rest)
    else if c = '\\' then parseStrEsc rest
    else (parseStrBody rest).map (fun p => (c :: p.1, p.2))

/-- Read the character following a backslash inside a string literal. -/
def parseStrEsc : List Char → Option (List Char × List Char)
  | [] => none
  | e :: r =>
    if e = '"' then (parseStrBody r).map (fun p => ('"' :: p.1, p.2))
    else if e = '\\' then (parseStrBody r).map (fun p => ('\\' :: p.1, p.2))
    else if e = '/' then (parseStrBody r).map (fun p => ('/' :: p.1, p.2))
    else if e = 'n' then (parseStrBody r).map (fun p => ('\n' :: p.1, p.2))
    else if e = 't' then (parseStrBody r).map (fun p => ('\t' :: p.1, p.2))
    else if e = 'r' then (parseStrBody r).map (fun p => ('\r' :: p.1, p.2))
    else if e = 'u' then parseStrU r
    else none

/-- Read a four-hex-digit escape body inside a string literal. -/
def parseStrU : List Char → Option (List Char × List Char)
  | a :: b :: c :: d :: r =>
    match hexVal? a, hexVal? b, hexVal? c, hexVal? d with
    | some ha, some hb, some hc, some hd =>
      (parseStrBody r).map
        (fun p => (Char.ofNat (((ha * 16 + hb) * 16 + hc) * 16 + hd) :: p.1, p.2))
    | _, _, _, _ => none
  | _ => none

end

theorem hexVal?_digitChar {d : Nat} (h : d < 16) : hexVal? (Nat.digitChar d) = some d := by
  interval_cases d <;> decide

theorem parseStrBody_escape (cs rest : List Char) :
    parseStrBody (escapeString cs ++ '"' :: rest) = some (cs, rest) := by
  induction cs with
  | nil => simp [escapeString, parseStrBody]
  | cons c cs ih =>
    by_cases h1 : c = '"'
    · subst h1
      simp [escapeString, escapeChar, parseStrBody, parseStrEsc, ih]
    · by_cases h2 : c = '\\'
      · subst h2
        simp [escapeString, escapeChar, parseStrBody, parseStrEsc, ih]
      · by_cases h3 : c.toNat < 32
        · have hhi : c.toNat / 16 < 16 := by omega
          have hlo : c.toNat % 16 < 16 := Nat.mod_lt _ (by norm_num)
          have hval : ((0 * 16 + 0) * 16 + c.toNat / 16) * 16 + c.toNat % 16 = c.toNat := by
            omega
          simp only [escapeString, escapeChar, h1, h2, h3, ite_true, ite_false,
            if_true, if_false, List.cons_append, List.nil_append, if_neg, if_pos]
          have h0 : hexVal? '0' = some 0 := by decide
          simp [parseStrBody, parseStrEsc, parseStrU, h0,
            hexVal?_digitChar hhi, hexVal?_digitChar hlo, ih, hval, Char.ofNat_toNat]
          rw [show c.toNat / 16 * 16 + c.toNat % 16 = c.toNat by omega]
          exact Char.ofNat_toNat c
        · simp [escapeString, escapeChar, h1, h2, h3, parseStrBody, ih]

/-! ### JSON numbers -/

/-- Left-pad a digit string with zeros to at least `n` characters. -/
def padZeros (cs : List Char) (n : Nat) : List Char :=
  List.replicate (n - cs.length) '0' ++ cs

/-- Decimal rendering of the non-negative number `n / 10 ^ e`. -/
def renderNumAbs (n e : Nat) : List Char :=
  if e = 0 then natToChars n
  else
    let ds := padZeros (natToChars n) (e + 1)
    ds.take (ds.length - e) ++ '.' :: ds.drop (ds.length - e)

/-- Decimal rendering of the number `m / 10 ^ e`. -/
def renderNum (m : Int) (e : Nat) : List Char :=
  (if m < 0 then ['-'] else []) ++ renderNumAbs m.natAbs e

/-- Read an unsigned decimal number: integer digits and an optional
fractional part.  Returns the digits' value, the count of fractional
digits, and the remaining input. -/
def parseNumAbs (cs : List Char) : Option ((Nat × Nat) × List Char) :=
  let ids := cs.takeWhile Char.isDigit
  let r1 := cs.dropWhile Char.isDigit
  if ids = [] then none
  else
    match r1 with
    | '.' :: r2 =>
      let fds := r2.takeWhile Char.isDigit
      let r3 := r2.dropWhile Char.isDigit
      if fds = [] then none
      else some ((foldDigits (ids ++ fds), fds.length), r3)
    | _ => some ((foldDigits ids, 0), r1)

/-- Read a JSON number, with an optional leading minus sign. -/
def parseNum (cs : List Char) : Option (Json × List Char) :=
  match cs with
  | [] => none
  | c :: cs2 =>
    if c = '-' then
      (parseNumAbs cs2).map (fun p => (Json.num (-(p.1.1 : Int)) p.1.2, p.2))
    else
      (parseNumAbs cs).map (fun p => (Json.num (p.1.1 : Int) p.1.2, p.2))

/-- The next character, if any, cannot continue a decimal number. -/
def numBoundary : List Char → Bool
  | [] => true
  | c :: _ => !c.isDigit && c != '.'

/-- The next character, if any, is not a digit. -/
def notDigitStart : List Char → Bool
  | [] => true
  | c :: _ => !c.isDigit

theorem numBoundary_notDigitStart {rest : List Char} (h : numBoundary rest = true) :
    notDigitStart rest = true := by
  cases rest with
  | nil => rfl
  | cons c r =>
    simp only [numBoundary, Bool.and_eq_true] at h
    simp [notDigitStart, h.1]

theorem takeWhile_digits_append {ds rest : List Char}
    (hds : ∀ c ∈ ds, c.isDigit = true) (hrest : notDigitStart rest = true) :
    (ds ++ rest).takeWhile Char.isDigit = ds ∧ (ds ++ rest).dropWhile Char.isDigit = rest := by
  induction ds with
  | nil =>
    cases rest with
    | nil => simp
    | cons c r =>
      simp only [notDigitStart, Bool.not_eq_true'] at hrest
      simp [List.takeWhile, List.dropWhile, hrest]
  | cons d ds ih =>
    have hd : d.isDigit = true := hds d (by simp)
    have hrec := ih (fun c hc => hds c (by simp [hc]))
    simp [List.takeWhile, List.dropWhile, hd, hrec.1, hrec.2]

theorem isDigit_ne_dash {c : Char} (h : c.isDigit = true) : c ≠ '-' := by
  simp [Char.isDigit] at h
  intro he
  subst he
  simp at h

theorem foldDigits_zeros (k : Nat) (cs : List Char) :
    foldDigits (List.replicate k '0' ++ cs) = foldDigits cs := by
  induction k with
  | zero => simp
  | succ k ih => simpa [foldDigits, List.replicate_succ, digitVal] using ih

theorem padZeros_all_digits {cs : List Char} (h : ∀ c ∈ cs, c.isDigit = true) (n : Nat) :
    ∀ c ∈ padZeros cs n, c.isDigit = true := by
  intro c hc
  simp only [padZeros, List.mem_append, List.mem_replicate] at hc
  rcases hc with ⟨_, rfl⟩ | hc
  · decide
  · exact h c hc

theorem padZeros_length (cs : List Char) (n : Nat) :
    (padZeros cs n).length = max n cs.length := by
  simp [padZeros]
  omega

theorem foldDigits_padZeros (n e : Nat) :
    foldDigits (padZeros (natToChars n) e) = n := by
  rw [padZeros, foldDigits_zeros, foldDigits_natToChars]

theorem parseNumAbs_render (n e : Nat) (rest : List Char) (hrest : numBoundary rest = true) :
    parseNumAbs (renderNumAbs n e ++ rest) = some ((n, e), rest) := by
  by_cases he : e = 0
  · subst he
    have h := takeWhile_digits_append (natToChars_all_digits n)
      (numBoundary_notDigitStart hrest)
    rw [show renderNumAbs n 0 = natToChars n from by simp [renderNumAbs]]
    simp only [parseNumAbs, h.1, h.2]
    rw [if_neg (natToChars_ne_nil n)]
    split
    · simp [numBoundary] at hrest
    · simp [foldDigits_natToChars]
  · have he1 : 1 ≤ e := Nat.one_le_iff_ne_zero.mpr he
    set ds := padZeros (natToChars n) (e + 1) with hds
    have hall : ∀ c ∈ ds, c.isDigit = true :=
      padZeros_all_digits (natToChars_all_digits n) (e + 1)
    have hL : e + 1 ≤ ds.length := by
      rw [hds, padZeros_length]
      omega
    have htakeall : ∀ c ∈ ds.take (ds.length - e), c.isDigit = true :=
      fun c hc => hall c (List.take_subset _ _ hc)
    have hdropall : ∀ c ∈ ds.drop (ds.length - e), c.isDigit = true :=
      fun c hc => hall c (List.drop_subset _ _ hc)
    have hrender : renderNumAbs n e ++ rest =
        ds.take (ds.length - e) ++ ('.' :: (ds.drop (ds.length - e) ++ rest)) := by
      simp [renderNumAbs, he, hds]
    have h1 := takeWhile_digits_append htakeall
      (by simp [notDigitStart] : notDigitStart ('.' :: (ds.drop (ds.length - e) ++ rest)) = true)
    have h2 := takeWhile_digits_append hdropall (numBoundary_notDigitStart hrest)
    have htklen : (ds.take (ds.length - e)).length = ds.length - e := by
      simp
    have htkne : ds.take (ds.length - e) ≠ [] := by
      intro hnil
      rw [← List.length_eq_zero] at hnil
      omega
    have hdroplen : (ds.drop (ds.length - e)).length = e := by
      simp
      omega
    have hdropne : ds.drop (ds.length - e) ≠ [] := by
      intro hnil
      rw [← List.length_eq_zero] at hnil
      omega
    rw [hrender]
    simp only [parseNumAbs, h1.1, h1.2]
    rw [if_neg htkne]
    simp only [h2.1, h2.2]
    rw [if_neg hdropne]
    rw [List.take_append_drop, hdroplen, hds, foldDigits_padZeros]

theorem renderNumAbs_head (n e : Nat) :
    ∃ c cs, renderNumAbs n e = c :: cs ∧ c.isDigit = true := by
  by_cases he : e = 0
  · subst he
    rcases hcons : natToChars n with _ | ⟨c, cs⟩
    · exact absurd hcons (natToChars_ne_nil n)
    · refine ⟨c, cs, by simp [renderNumAbs, hcons], ?_⟩
      have := natToChars_all_digits n
      rw [hcons] at this
      exact this c (by simp)
  · set ds := padZeros (natToChars n) (e + 1) with hds
    have hall : ∀ c ∈ ds, c.isDigit = true :=
      padZeros_all_digits (natToChars_all_digits n) (e + 1)
    have hL : e + 1 ≤ ds.length := by
      rw [hds, padZeros_length]
      omega
    rcases hcons : ds.take (ds.length - e) with _ | ⟨c, cs⟩
    · exfalso
      have := congrArg List.length hcons
      simp at this
      omega
    · refine ⟨c, cs ++ '.' :: ds.drop (ds.length - e), ?_, ?_⟩
      · simp [renderNumAbs, he, ← hds, hcons]
      · have hmem : c ∈ ds.take (ds.length - e) := by
          rw [hcons]
          simp
        exact hall c (List.take_subset _ _ hmem)

theorem parseNum_render (m : Int) (e : Nat) (rest : List Char)
    (hrest : numBoundary rest = true) :
    parseNum (renderNum m e ++ rest) = some (Json.num m e, rest) := by
  obtain ⟨c, cs, hcons, hdig⟩ := renderNumAbs_head m.natAbs e
  by_cases hm : m < 0
  · have : renderNum m e ++ rest = '-' :: (renderNumAbs m.natAbs e ++ rest) := by
      simp [renderNum, hm]
    rw [this]
    simp only [parseNum, if_pos rfl]
    rw [parseNumAbs_render _ _ _ hrest]
    simp only [Option.map_some']
    rw [show -((m.natAbs : Int)) = m by omega]
    simp
  · have : renderNum m e ++ rest = c :: (cs ++ rest) := by
      simp [renderNum, hm, hcons]
    rw [this]
    simp only [parseNum]
    rw [if_neg (isDigit_ne_dash hdig)]
    rw [show c :: (cs ++ rest) = renderNumAbs m.natAbs e ++ rest by simp [hcons]]
    rw [parseNumAbs_render _ _ _ hrest]
    simp only [Option.map_some']
    rw [show ((m.natAbs : Int)) = m by omega]

/-! ### Whole documents

`render` mirrors `json.dumps` (with the purely cosmetic separator
whitespace elided), `parseVal` mirrors the grammar `json.loads` accepts on
such documents. -/

/-- The keyword literal `null` of the wire format. -/
def nullLit : List Char := ['n', 'u', 'l', 'l']

/-- The keyword literal `true` of the wire format. -/
def trueLit : List Char := ['t', 'r', 'u', 'e']

/-- The keyword literal `false` of the wire format. -/
def falseLit : List Char := ['f', 'a', 'l', 's', 'e']

mutual

/-- Serialize a JSON value, as `json.dumps` does. -/
def render : Json → List Char
  | .null => nullLit
  | .bool true => trueLit
  | .bool false => falseLit
  | .num m e => renderNum m e
  | .str s => '"' :: escapeString s.data ++ ['"']
  | .arr xs => '[' :: renderList xs ++ [']']
  | .obj fs => '{' :: renderFields fs ++ ['}']

/-- Serialize comma-separated array elements. -/
def renderList : List Json → List Char
  | [] => []
  | [x] => render x
  | x :: xs => render x ++ ',' :: renderList xs

/-- Serialize comma-separated object members. -/
def renderFields : List (String × Json) → List Char
  | [] => []
  | [(k, v)] => ('"' :: escapeString k.data ++ '"' :: [':']) ++ render v
  | (k, v) :: fs =>
    ('"' :: escapeString k.data ++ '"' :: [':']) ++ render v ++ ',' :: renderFields fs

end

mutual

/-- Fuel sufficient for `parseVal` to read a rendered value back. -/
def needV : Json → Nat
  | .null => 1
  | .bool _ => 1
  | .num _ _ => 1
  | .str _ => 1
  | .arr xs => 2 + needL xs
  | .obj fs => 2 + needF fs

/-- Fuel sufficient for `parseElems` on rendered array elements. -/
def needL : List Json → Nat
  | [] => 0
  | x :: xs => 1 + max (needV x) (needL xs)

/-- Fuel sufficient for `parseFields` on rendered object members. -/
def needF : List (String × Json) → Nat
  | [] => 0
  | kv :: fs => 1 + max (needV kv.2) (needF fs)

end

/-- Consume an exact literal character sequence. -/
def expectChars : List Char → List Char → Option (List Char)
  | [], cs => some cs
  | p :: ps, c :: cs => if c = p then expectChars ps cs else none
  | _ :: _, [] => none

mutual

/-- Read one JSON value. -/
def parseVal : Nat → List Char → Option (Json × List Char)
  | 0, _ => none
  | fuel + 1, cs =>
    match cs with
    | [] => none
    | c :: rest =>
      if c = 'n' then (expectChars ['u', 'l', 'l'] rest).map (fun r => (Json.null, r))
      else if c = 't' then (expectChars ['r', 'u', 'e'] rest).map (fun r => (Json.bool true, r))
      else if c = 'f' then
        (expectChars ['a', 'l', 's', 'e'] rest).map (fun r => (Json.bool false, r))
      else if c = '"' then (parseStrBody rest).map (fun p => (Json.str (String.mk p.1), p.2))
      else if c = '[' then parseArrStart fuel rest
      else if c = '{' then parseObjStart fuel rest
      else parseNum cs

/-- Read the inside of an array, after the opening bracket. -/
def parseArrStart : Nat → List Char → Option (Json × List Char)
  | 0, _ => none
  | fuel + 1, cs =>
    match cs with
    | [] => none
    | c :: r =>
      if c = ']' then some (Json.arr [], r)
      else (parseElems fuel (c :: r)).map (fun p => (Json.arr p.1, p.2))

/-- Read one or more comma-separated array elements and the closing bracket. -/
def parseElems : Nat → List Char → Option (List Json × List Char)
  | 0, _ => none
  | fuel + 1, cs =>
    (parseVal fuel cs).bind (fun p =>
      match p.2 with
      | [] => none
      | c :: r =>
        if c = ',' then (parseElems fuel r).map (fun q => (p.1 :: q.1, q.2))
        else if c = ']' then some ([p.1], r)
        else none)

/-- Read the inside of an object, after the opening brace. -/
def parseObjStart : Nat → List Char → Option (Json × List Char)
  | 0, _ => none
  | fuel + 1, cs =>
    match cs with
    | [] => none
    | c :: r =>
      if c = '}' then some (Json.obj [], r)
      else (parseFields fuel (c :: r)).map (fun p => (Json.obj p.1, p.2))

/-- Read one or more comma-separated object members and the closing brace. -/
def parseFields : Nat → List Char → Option (List (String × Json) × List Char)
  | 0, _ => none
  | fuel + 1, cs =>
    match cs with
    | [] => none
    | c :: r =>
      if c = '"' then
        (parseStrBody r).bind (fun kp =>
          match kp.2 with
          | [] => none
          | c2 :: r2 =>
            if c2 = ':' then
              (parseVal fuel r2).bind (fun vp =>
                match vp.2 with
                | [] => none
                | c3 :: r3 =>
                  if c3 = ',' then
                    (parseFields fuel r3).map
                      (fun q => ((String.mk kp.1, vp.1) :: q.1, q.2))
                  else if c3 = '}' then some ([(String.mk kp.1, vp.1)], r3)
                  else none)
            else none)
      else none

end

/-! ### The round trip -/

/-- Characters that can begin a rendered JSON value. -/
def jsonStart (c : Char) : Bool :=
  c.isDigit || c = '-' || c = '"' || c = '[' || c = '{' || c = 'n' || c = 't' || c = 'f'

theorem mk_data (s : String) : String.mk s.data = s := rfl

theorem renderNum_head (m : Int) (e : Nat) :
    ∃ c cs, renderNum m e = c :: cs ∧ (c.isDigit = true ∨ c = '-') := by
  obtain ⟨c, cs, hcons, hdig⟩ := renderNumAbs_head m.natAbs e
  by_cases hm : m < 0
  · exact ⟨'-', renderNumAbs m.natAbs e, by simp [renderNum, hm], Or.inr rfl⟩
  · exact ⟨c, cs, by simp [renderNum, hm, hcons], Or.inl hdig⟩

theorem render_head (v : Json) : ∃ c cs, render v = c :: cs ∧ jsonStart c = true := by
  cases v with
  | null => exact ⟨'n', ['u', 'l', 'l'], by simp [render, nullLit], by decide⟩
  | bool b => cases b with
    | true => exact ⟨'t', ['r', 'u', 'e'], by simp [render, trueLit], by decide⟩
    | false => exact ⟨'f', ['a', 'l', 's', 'e'], by simp [render, falseLit], by decide⟩
  | num m e =>
    obtain ⟨c, cs, hcons, h⟩ := renderNum_head m e
    refine ⟨c, cs, by simp [render, hcons], ?_⟩
    rcases h with h | h
    · simp [jsonStart, h]
    · simp [jsonStart, h]
  | str s => exact ⟨'"', escapeString s.data ++ ['"'], by simp [render], by decide⟩
  | arr xs => exact ⟨'[', renderList xs ++ [']'], by simp [render], by decide⟩
  | obj fs => exact ⟨'{', renderFields fs ++ ['}'], by simp [render], by decide⟩

theorem numBoundary_comma (rest : List Char) : numBoundary (',' :: rest) = true := rfl

theorem numBoundary_rbracket (rest : List Char) : numBoundary (']' :: rest) = true := rfl

theorem numBoundary_rbrace (rest : List Char) : numBoundary ('}' :: rest) = true := rfl

theorem jsonStart_ne_close {c : Char} (h : jsonStart c = true) :
    c ≠ ']' ∧ c ≠ '}' := by
  simp only [jsonStart, Bool.or_eq_true, decide_eq_true_eq] at h
  have hd : c.isDigit = true → 48 ≤ c.toNat ∧ c.toNat ≤ 57 := by
    intro hdig
    simp [Char.isDigit] at hdig
    exact ⟨hdig.1, hdig.2⟩
  constructor <;> intro he <;> subst he <;>
    rcases h with ((((((h | h) | h) | h) | h) | h) | h) | h <;> simp_all <;> omega

theorem numStart_ne {c : Char} (h : c.isDigit = true ∨ c = '-') :
    c ≠ 'n' ∧ c ≠ 't' ∧ c ≠ 'f' ∧ c ≠ '"' ∧ c ≠ '[' ∧ c ≠ '{' := by
  rcases h with h | h
  · simp [Char.isDigit] at h
    refine ⟨?_, ?_, ?_, ?_, ?_, ?_⟩ <;> intro he <;> subst he <;> simp_all
  · subst h
    decide

theorem renderList_cons (x : Json) (xs : List Json) :
    ∃ t, renderList (x :: xs) = render x ++ t := by
  cases xs with
  | nil => exact ⟨[], by simp [renderList]⟩
  | cons y ys => exact ⟨',' :: renderList (y :: ys), by simp [renderList]⟩

theorem needV_pos (v : Json) : 1 ≤ needV v := by
  cases v <;> simp [needV] <;> omega

theorem parse_render_fuel (fuel : Nat) :
    (∀ v rest, needV v ≤ fuel → numBoundary rest = true →
      parseVal fuel (render v ++ rest) = some (v, rest)) ∧
    (∀ xs rest, xs ≠ [] → needL xs ≤ fuel →
      parseElems fuel (renderList xs ++ ']' :: rest) = some (xs, rest)) ∧
    (∀ fs rest, fs ≠ [] → needF fs ≤ fuel →
      parseFields fuel (renderFields fs ++ '}' :: rest) = some (fs, rest)) := by
  induction fuel using Nat.strong_induction_on with
  | _ fuel ih =>
    rcases fuel with _ | f
    · refine ⟨fun v rest hneed _ => absurd hneed (by have := needV_pos v; omega), ?_, ?_⟩
      · rintro (_ | ⟨x, xs⟩) rest hne hneed
        · exact absurd rfl hne
        · simp [needL] at hneed
      · rintro (_ | ⟨⟨k, v⟩, fs⟩) rest hne hneed
        · exact absurd rfl hne
        · simp [needF] at hneed
    · refine ⟨?_, ?_, ?_⟩
      · intro v rest hneed hrest
        cases v with
        | null => simp [render, nullLit, parseVal, expectChars]
        | bool b => cases b <;> simp [render, trueLit, falseLit, parseVal, expectChars]
        | num m e =>
          obtain ⟨c, cs, hcons, hstart⟩ := renderNum_head m e
          obtain ⟨hn, ht, hf, hq, hb, hc2⟩ := numStart_ne hstart
          have hrw : render (Json.num m e) ++ rest = c :: (cs ++ rest) := by
            simp [render, hcons]
          rw [hrw]
          simp only [parseVal]
          rw [if_neg hn, if_neg ht, if_neg hf, if_neg hq, if_neg hb, if_neg hc2]
          rw [show c :: (cs ++ rest) = renderNum m e ++ rest by simp [hcons]]
          exact parseNum_render m e rest hrest
        | str s =>
          have hrw : render (Json.str s) ++ rest =
              '"' :: (escapeString s.data ++ '"' :: rest) := by
            simp [render]
          rw [hrw]
          simp [parseVal, parseStrBody_escape, mk_data]
        | arr xs =>
          have hfge : 1 + needL xs ≤ f := by
            simp [needV] at hneed
            omega
          obtain ⟨g, rfl⟩ := Nat.exists_eq_succ_of_ne_zero
            (show f ≠ 0 by omega)
          cases xs with
          | nil => simp [render, renderList, parseVal, parseArrStart]
          | cons x xs =>
            obtain ⟨t, ht⟩ := renderList_cons x xs
            obtain ⟨c, cs, hcons, hstart⟩ := render_head x
            have hrw : render (Json.arr (x :: xs)) ++ rest =
                '[' :: (renderList (x :: xs) ++ ']' :: rest) := by
              simp [render]
            rw [hrw]
            have hbody : parseVal (g + 1 + 1) ('[' :: (renderList (x :: xs) ++ ']' :: rest)) =
                parseArrStart (g + 1) (renderList (x :: xs) ++ ']' :: rest) := by
              simp [parseVal]
            rw [hbody]
            have hshape : renderList (x :: xs) ++ ']' :: rest =
                c :: (cs ++ t ++ ']' :: rest) := by
              rw [ht, hcons]
              simp
            rw [hshape]
            simp only [parseArrStart]
            rw [if_neg (jsonStart_ne_close hstart).1]
            rw [← hshape]
            rw [(ih g (by omega)).2.1 (x :: xs) rest (by simp) (by omega)]
            rfl
        | obj fs =>
          have hfge : 1 + needF fs ≤ f := by
            simp [needV] at hneed
            omega
          obtain ⟨g, rfl⟩ := Nat.exists_eq_succ_of_ne_zero
            (show f ≠ 0 by omega)
          cases fs with
          | nil => simp [render, renderFields, parseVal, parseObjStart]
          | cons kv fs =>
            obtain ⟨k, v⟩ := kv
            have hrw : render (Json.obj ((k, v) :: fs)) ++ rest =
                '{' :: (renderFields ((k, v) :: fs) ++ '}' :: rest) := by
              simp [render]
            rw [hrw]
            have hbody : parseVal (g + 1 + 1)
                  ('{' :: (renderFields ((k, v) :: fs) ++ '}' :: rest)) =
                parseObjStart (g + 1) (renderFields ((k, v) :: fs) ++ '}' :: rest) := by
              simp [parseVal]
            rw [hbody]
            have hshape : ∃ t, renderFields ((k, v) :: fs) ++ '}' :: rest =
                '"' :: t := by
              cases fs with
              | nil =>
                exact ⟨escapeString k.data ++ '"' :: ':' :: (render v ++ '}' :: rest),
                  by simp [renderFields]⟩
              | cons kv2 fs2 =>
                exact ⟨escapeString k.data ++ '"' :: ':' ::
                    (render v ++ ',' :: (renderFields (kv2 :: fs2) ++ '}' :: rest)),
                  by simp [renderFields]⟩
            obtain ⟨t, ht⟩ := hshape
            rw [ht]
            simp only [parseObjStart]
            rw [if_neg (by decide)]
            rw [← ht]
            rw [(ih g (by omega)).2.2 ((k, v) :: fs) rest (by simp) (by omega)]
            rfl
      · intro xs rest hne hneed
        have ihV := (ih f (by omega)).1
        have ihL := (ih f (by omega)).2.1
        cases xs with
        | nil => exact absurd rfl hne
        | cons x xs =>
          cases xs with
          | nil =>
            have hx : needV x ≤ f := by
              simp [needL] at hneed
              omega
            simp only [parseElems]
            rw [show renderList [x] ++ ']' :: rest = render x ++ ']' :: rest by
              simp [renderList]]
            rw [ihV x (']' :: rest) hx (numBoundary_rbracket rest)]
            simp
          | cons y ys =>
            have hx1 : needV x ≤ f := by
              simp [needL] at hneed
              omega
            have hx2 : needL (y :: ys) ≤ f := by
              simp [needL] at hneed ⊢
              omega
            simp only [parseElems]
            rw [show renderList (x :: y :: ys) ++ ']' :: rest =
                render x ++ ',' :: (renderList (y :: ys) ++ ']' :: rest) by
              simp [renderList]]
            rw [ihV x (',' :: (renderList (y :: ys) ++ ']' :: rest)) hx1
              (numBoundary_comma _)]
            simp [ihL (y :: ys) rest (by simp) hx2]
      · intro fs rest hne hneed
        have ihV := (ih f (by omega)).1
        have ihF := (ih f (by omega)).2.2
        cases fs with
        | nil => exact absurd rfl hne
        | cons kv fs =>
          obtain ⟨k, v⟩ := kv
          cases fs with
          | nil =>
            have hv : needV v ≤ f := by
              simp [needF] at hneed
              omega
            rw [show renderFields [(k, v)] ++ '}' :: rest =
                '"' :: (escapeString k.data ++ '"' :: (':' :: (render v ++ '}' :: rest))) by
              simp [renderFields]]
            simp only [parseFields]
            simp only [parseStrBody_escape, Option.bind_some]
            simp [ihV v ('}' :: rest) hv (numBoundary_rbrace rest), mk_data]
          | cons kv2 fs2 =>
            have hv1 : needV v ≤ f := by
              simp [needF] at hneed
              omega
            have hv2 : needF (kv2 :: fs2) ≤ f := by
              simp [needF] at hneed ⊢
              omega
            rw [show renderFields ((k, v) :: kv2 :: fs2) ++ '}' :: rest =
                '"' :: (escapeString k.data ++ '"' ::
                  (':' :: (render v ++ ',' :: (renderFields (kv2 :: fs2) ++ '}' :: rest)))) by
              simp [renderFields]]
            simp only [parseFields]
            simp only [parseStrBody_escape, Option.bind_some]
            simp [ihV v (',' :: (renderFields (kv2 :: fs2) ++ '}' :: rest)) hv1
                (numBoundary_comma _),
              ihF (kv2 :: fs2) rest (by simp) hv2, mk_data]

theorem render_length_pos (v : Json) : 1 ≤ (render v).length := by
  obtain ⟨c, cs, h, _⟩ := render_head v
  simp [h]

mutual

theorem needV_le (v : Json) : needV v ≤ 2 * (render v).length := by
  cases v with
  | null => simp [needV, render, nullLit]
  | bool b => cases b <;> simp [needV, render, trueLit, falseLit]
  | num m e =>
    have := render_length_pos (Json.num m e)
    simp [needV]
    omega
  | str s =>
    simp [needV, render]
    omega
  | arr xs =>
    have h := needL_le xs
    have hunf : needV (Json.arr xs) = 2 + needL xs := rfl
    have hlen : (render (Json.arr xs)).length = 2 + (renderList xs).length := by
      simp [render]
      omega
    omega
  | obj fs =>
    have h := needF_le fs
    have hunf : needV (Json.obj fs) = 2 + needF fs := rfl
    have hlen : (render (Json.obj fs)).length = 2 + (renderFields fs).length := by
      simp [render]
      omega
    omega

theorem needL_le (xs : List Json) : needL xs ≤ 2 * (renderList xs).length + 1 := by
  cases xs with
  | nil => simp [needL, renderList]
  | cons x xs =>
    have h1 := needV_le x
    cases xs with
    | nil =>
      have hunf : needL [x] = 1 + max (needV x) (needL []) := rfl
      have hnil : needL ([] : List Json) = 0 := rfl
      have hlen : (renderList [x]).length = (render x).length := by
        simp [renderList]
      omega
    | cons y ys =>
      have h2 := needL_le (y :: ys)
      have hunf : needL (x :: y :: ys) = 1 + max (needV x) (needL (y :: ys)) := rfl
      have hlen : (renderList (x :: y :: ys)).length =
          (render x).length + 1 + (renderList (y :: ys)).length := by
        simp [renderList]
        omega
      omega

theorem needF_le (fs : List (String × Json)) :
    needF fs ≤ 2 * (renderFields fs).length + 1 := by
  cases fs with
  | nil => simp [needF, renderFields]
  | cons kv fs =>
    obtain ⟨k, v⟩ := kv
    have h1 := needV_le v
    cases fs with
    | nil =>
      have hunf : needF [(k, v)] = 1 + max (needV v) (needF []) := rfl
      have hnil : needF ([] : List (String × Json)) = 0 := rfl
      have hlen : (renderFields [(k, v)]).length =
          (escapeString k.data).length + 3 + (render v).length := by
        simp [renderFields]
        omega
      omega
    | cons kv2 fs2 =>
      have h2 := needF_le (kv2 :: fs2)
      have hunf : needF ((k, v) :: kv2 :: fs2) =
          1 + max (needV v) (needF (kv2 :: fs2)) := rfl
      have hlen : (renderFields ((k, v) :: kv2 :: fs2)).length =
          (escapeString k.data).length + 3 + (render v).length + 1 +
            (renderFields (kv2 :: fs2)).length := by
        simp [renderFields]
        omega
      omega

end

/-- Parse a complete JSON document, as `json.loads` does: the entire input
must be one JSON value. -/
def decodeJson (cs : List Char) : Option Json :=
  match parseVal (2 * cs.length) cs with
  | some (v, []) => some v
  | _ => none

theorem decodeJson_render (v : Json) : decodeJson (render v) = some v := by
  have h := (parse_render_fuel (2 * (render v).length)).1 v [] (needV_le v) rfl
  simp only [List.append_nil] at h
  simp [decodeJson, h]

/-! ## The message envelope

`send_message` (advanced_ai_server.py lines 67–74) builds the dict
`{"type": message_type, "data": data, "timestamp": ...}` and writes
`json.dumps` of it to the socket; the receive loop reads frames back with
`json.loads`. -/

/-- The wire message envelope. -/
structure Envelope where
  type : String
  data : Json
  timestamp : String

/-- The JSON document `send_message` serializes. -/
def envelopeJson (e : Envelope) : Json :=
  Json.obj [("type", Json.str e.type), ("data", e.data), ("timestamp", Json.str e.timestamp)]

/-- Encode an envelope to its wire bytes (`json.dumps` of the message dict). -/
def encode (e : Envelope) : List Char := render (envelopeJson e)

/-- Python `dict.get`-style lookup on decoded object fields. -/
def lookupField : List (String × Json) → String → Option Json
  | [], _ => none
  | (k, v) :: fs, key => if k = key then some v else lookupField fs key

/-- Decode wire bytes back to an envelope: `json.loads`, then reading the
three top-level fields. -/
def decode (cs : List Char) : Option Envelope :=
  match decodeJson cs with
  | some (Json.obj fields) =>
    match lookupField fields "type", lookupField fields "data",
        lookupField fields "timestamp" with
    | some (Json.str t), some d, some (Json.str ts) => some ⟨t, d, ts⟩
    | _, _, _ => none
  | _ => none

/-- **C6.** For every envelope (any type string, any JSON data, any
timestamp string), decoding the bytes produced by encoding it yields the
same envelope: `decode (encode e) = some e`. -/
theorem decode_encode_roundtrip (e : Envelope) : decode (encode e) = some e := by
  simp [decode, encode, decodeJson_render, envelopeJson, lookupField]

/-! ## The WebSocket client

Embedding of `advanced_ai_server.py`, class `WebSocketClient`
(lines 31–137), plus `SimpleLicensePlateClient.disconnect` from
`simple_client.py`.  Transport outcomes are supplied by the environment;
observable actions are recorded in an `Effect` trace; Python exception
flow is made explicit with `PyResult` and a `pyCatch` combinator mirroring
the code's `try`/`except` blocks. -/

/-- The transport connection object (a `websockets` protocol instance);
the client code only reads its `closed` flag. -/
structure WSConn where
  closed : Bool
deriving DecidableEq, Repr

/-- Mutable state of `WebSocketClient` (`__init__`, lines 34–40).
`server_url` is omitted: the client only passes it to the transport. -/
structure ClientState where
  websocket : Option WSConn
  running : Bool
  reconnect_attempts : Nat
  max_reconnect_attempts : Nat
  reconnect_delay : Nat
deriving DecidableEq, Repr

/-- The state `__init__` builds: no socket, not running, zero attempts,
limit 10, base delay 5 seconds. -/
def initClient : ClientState :=
  { websocket := none, running := false, reconnect_attempts := 0,
    max_reconnect_attempts := 10, reconnect_delay := 5 }

/-- Outcome of one `websockets.connect(...)` call, chosen by the
environment (network). -/
inductive ConnectOutcome where
  | success
  | failure
deriving DecidableEq, Repr

/-- Outcome of one `websocket.send(...)` call. -/
inductive SendOutcome where
  | delivered
  | raiseError
deriving DecidableEq, Repr

/-- Observable actions of the client, in chronological order. -/
inductive Effect where
  | connectAttempt
  | sleep (seconds : Nat)
  | wsSendFrame (frame : List Char)
  | closeTransport
  | invokeHandler (commandType : String)
  | log
deriving DecidableEq, Repr

/-- Result of running a Python fragment: a normal value, or an uncaught
exception carrying its message. -/
inductive PyResult (α : Type) where
  | ok (value : α)
  | exn (message : String)

/-- Sequencing with exception propagation. -/
def PyResult.bind : PyResult α → (α → PyResult β) → PyResult β
  | .ok a, f => f a
  | .exn m, _ => .exn m

/-- A `try:` body `except Exception:` handler block. -/
def pyCatch : PyResult α → (String → PyResult α) → PyResult α
  | .ok a, _ => .ok a
  | .exn m, h => h m

/-- The fragment completed without an uncaught exception. -/
def PyResult.isOk : PyResult α → Bool
  | .ok _ => true
  | .exn _ => false

/-- `await websockets.connect(...)`: a live connection, or a raised
transport error. -/
def ws_connect_raw : ConnectOutcome → PyResult WSConn
  | .success => .ok ⟨false⟩
  | .failure => .exn "ConnectionRefused"

/-- `await websocket.send(frame)`: returns, or raises a transport error. -/
def ws_send_raw : SendOutcome → PyResult Unit
  | .delivered => .ok ()
  | .raiseError => .exn "ConnectionClosed"

/-- Result of one client operation: successor state, the returned
boolean, and the effect trace. -/
structure OpResult where
  state : ClientState
  returned : Bool
  effects : List Effect
deriving DecidableEq, Repr

/-- `connect` (lines 42–58) with its exception flow explicit: `try:` open
the transport, set `running := True`, zero the attempt counter, return
`True`; `except Exception:` log the error and return `False`. -/
def connect_m (out : ConnectOutcome) (s : ClientState) : PyResult OpResult :=
  pyCatch
    ((ws_connect_raw out).bind (fun ws =>
      .ok ⟨{ s with websocket := some ws, running := true, reconnect_attempts := 0 },
        true, [.log, .connectAttempt, .log]⟩))
    (fun _ => .ok ⟨s, false, [.log, .connectAttempt, .log]⟩)

/-- `connect` (lines 42–58) as the total function the caller sees. -/
def connect (out : ConnectOutcome) (s : ClientState) : OpResult :=
  match out with
  | .success =>
    ⟨{ s with websocket := some ⟨false⟩, running := true, reconnect_attempts := 0 },
      true, [.log, .connectAttempt, .log]⟩
  | .failure => ⟨s, false, [.log, .connectAttempt, .log]⟩

theorem connect_m_eq (out : ConnectOutcome) (s : ClientState) :
    connect_m out s = .ok (connect out s) := by
  cases out <;> rfl

/-- Environment for one `send_message` call: the transport outcomes it
may consume and the wall clock (`datetime.now().isoformat()`). -/
structure SendEnv where
  connectOutcome : ConnectOutcome
  sendOutcome : SendOutcome
  now : String

/-- The guard of line 62: `not self.websocket or self.websocket.closed`. -/
def notConnected (s : ClientState) : Bool :=
  match s.websocket with
  | none => true
  | some ws => ws.closed

/-- Lines 67–79 of `send_message`: build the message dict, then `try:`
`websocket.send(json.dumps(message))`, return `True`;
`except Exception:` log and return `False`.  (`self.websocket.send` on a
`None` socket raises `AttributeError`, which the bare `except` also
catches.) -/
def send_body_m (env : SendEnv) (s : ClientState) (message_type : String)
    (data : Json) : PyResult OpResult :=
  let frame := encode ⟨message_type, data, env.now⟩
  pyCatch
    ((match s.websocket with
      | none => PyResult.exn "AttributeError"
      | some _ => ws_send_raw env.sendOutcome).bind (fun _ =>
        .ok ⟨s, true, [.wsSendFrame frame, .log]⟩))
    (fun _ => .ok ⟨s, false, [.log]⟩)

/-- Lines 67–79 as a total function. -/
def send_body (env : SendEnv) (s : ClientState) (message_type : String)
    (data : Json) : OpResult :=
  let frame := encode ⟨message_type, data, env.now⟩
  match s.websocket with
  | none => ⟨s, false, [.log]⟩
  | some _ =>
    match env.sendOutcome with
    | .delivered => ⟨s, true, [.wsSendFrame frame, .log]⟩
    | .raiseError => ⟨s, false, [.log]⟩

theorem send_body_m_eq (env : SendEnv) (s : ClientState) (t : String) (d : Json) :
    send_body_m env s t d = .ok (send_body env s t d) := by
  cases hws : s.websocket <;> cases henv : env.sendOutcome <;>
    simp [send_body_m, send_body, hws, henv, ws_send_raw, pyCatch, PyResult.bind]

/-- `send_message` (lines 60–79), exception flow explicit: when the guard
finds the socket absent or closed it first calls `connect` itself
(lines 63–65) and returns `False` if that fails; otherwise it serializes
the envelope and writes it. -/
def send_message_m (env : SendEnv) (s : ClientState) (message_type : String)
    (data : Json) : PyResult OpResult :=
  if notConnected s then
    (connect_m env.connectOutcome s).bind (fun r =>
      if r.returned then
        (send_body_m env r.state message_type data).bind (fun r2 =>
          .ok ⟨r2.state, r2.returned, (.log :: r.effects) ++ r2.effects⟩)
      else .ok ⟨r.state, false, .log :: r.effects⟩)
  else send_body_m env s message_type data

/-- `send_message` (lines 60–79) as a total function. -/
def send_message (env : SendEnv) (s : ClientState) (message_type : String)
    (data : Json) : OpResult :=
  if notConnected s then
    let r := connect env.connectOutcome s
    if r.returned then
      let r2 := send_body env r.state message_type data
      ⟨r2.state, r2.returned, (.log :: r.effects) ++ r2.effects⟩
    else ⟨r.state, false, .log :: r.effects⟩
  else send_body env s message_type data

theorem send_message_m_eq (env : SendEnv) (s : ClientState) (t : String) (d : Json) :
    send_message_m env s t d = .ok (send_message env s t d) := by
  by_cases h : notConnected s = true
  · cases hco : env.connectOutcome <;>
      simp [send_message_m, send_message, h, hco, connect_m_eq, connect,
        send_body_m_eq, PyResult.bind]
  · simp [send_message_m, send_message, h, send_body_m_eq]

/-- `send_license_plate_detection` (lines 81–83): forwards the payload
verbatim under type `license_plate_detected`. -/
def send_license_plate_detection (env : SendEnv) (s : ClientState)
    (detection_data : Json) : OpResult :=
  send_message env s "license_plate_detected" detection_data

/-- `reconnect` (lines 125–137): below the attempt limit, bump the
counter, sleep `reconnect_delay * attempts`, and delegate to `connect`;
at the limit, log and return `False` without any attempt. -/
def reconnect (out : ConnectOutcome) (s : ClientState) : OpResult :=
  if s.reconnect_attempts < s.max_reconnect_attempts then
    let s1 := { s with reconnect_attempts := s.reconnect_attempts + 1 }
    let delay := s.reconnect_delay * s1.reconnect_attempts
    let r := connect out s1
    ⟨r.state, r.returned, .log :: .sleep delay :: r.effects⟩
  else ⟨s, false, [.log]⟩

/-- `handle_command` (lines 110–116): reads `command.get('type')`, logs
it, and invokes no handler — the body is a stub meant to be overridden.
On a decoded frame that is not a JSON object, attribute access on the
non-dict value raises `AttributeError`. -/
def handle_command_m (command : Json) : PyResult (List Effect) :=
  match command with
  | .obj _ => .ok [.log]
  | _ => .exn "AttributeError"

/-- How the `async for` loop of `listen_for_commands` terminates once the
supplied frames are exhausted. -/
inductive LoopEnd where
  | cleanEnd
  | connectionClosed
  | otherError
deriving DecidableEq, Repr

/-- Result of running the receive loop. -/
structure ListenResult where
  state : ClientState
  effects : List Effect
  handled : List Json
  aborted : Bool

/-- The `async for` body of `listen_for_commands` (lines 96–102) over a
list of inbound text frames: each frame is `json.loads`-decoded inside a
`try` whose `except json.JSONDecodeError` logs and continues; decoded
commands are logged and passed to `handle_command`.  An exception other
than `JSONDecodeError` (e.g. attribute access on a non-dict command)
escapes to the outer `except Exception` (lines 106–108), which sets
`running = False` and ends the loop. -/
def processFrames : List (List Char) → ClientState → ListenResult
  | [], s => ⟨s, [], [], false⟩
  | f :: fs, s =>
    match decodeJson f with
    | none =>
      let r := processFrames fs s
      ⟨r.state, .log :: r.effects, r.handled, r.aborted⟩
    | some cmd =>
      match handle_command_m cmd with
      | .ok effs =>
        let r := processFrames fs s
        ⟨r.state, (.log :: effs) ++ r.effects, cmd :: r.handled, r.aborted⟩
      | .exn _ => ⟨{ s with running := false }, [.log], [], true⟩

/-- `listen_for_commands` (lines 93–108): run the frame loop; if it was
not aborted by an exception, the iteration ends as `ending` says —
normally (the function just returns), by `ConnectionClosed` (caught at
line 103: log, `running = False`), or by another transport error (caught
at line 106: log, `running = False`). -/
def listen_for_commands (frames : List (List Char)) (ending : LoopEnd)
    (s : ClientState) : ListenResult :=
  let r := processFrames frames s
  if r.aborted then r
  else
    match ending with
    | .cleanEnd => r
    | .connectionClosed =>
      ⟨{ r.state with running := false }, r.effects ++ [.log], r.handled, false⟩
    | .otherError =>
      ⟨{ r.state with running := false }, r.effects ++ [.log], r.handled, false⟩

/-- `disconnect` (advanced_ai_server.py lines 118–123): set
`running = False`; close the transport only when a socket exists and is
not already closed. -/
def disconnect (s : ClientState) : ClientState × List Effect :=
  let s1 := { s with running := false }
  match s1.websocket with
  | none => (s1, [])
  | some ws =>
    if ws.closed then (s1, [])
    else ({ s1 with websocket := some ⟨true⟩ }, [.closeTransport, .log])

/-- State of `SimpleLicensePlateClient` (simple_client.py): just the
optional websocket. -/
structure SimpleClientState where
  websocket : Option WSConn
deriving DecidableEq, Repr

/-- `SimpleLicensePlateClient.disconnect` (simple_client.py lines
206–210): calls `close()` whenever a websocket object exists — also when
it is already closed (`close` is then a no-op in the transport library
and raises nothing). -/
def simple_disconnect (s : SimpleClientState) : SimpleClientState × List Effect :=
  match s.websocket with
  | none => (s, [])
  | some _ => (⟨some ⟨true⟩⟩, [.closeTransport, .log])

/-! ### Trace helpers -/

/-- Number of transport connection attempts in a trace. -/
def countConnects (effs : List Effect) : Nat :=
  effs.countP (fun e => match e with | .connectAttempt => true | _ => false)

/-- Total seconds slept in a trace. -/
def totalSleep : List Effect → Nat
  | [] => 0
  | .sleep n :: es => n + totalSleep es
  | _ :: es => totalSleep es


theorem totalSleep_append (xs ys : List Effect) :
    totalSleep (xs ++ ys) = totalSleep xs + totalSleep ys := by
  induction xs with
  | nil => simp [totalSleep]
  | cons e es ih => cases e <;> simp [totalSleep, ih] <;> omega

/-- Call `reconnect` `n` times in sequence against a transport that
always fails, accumulating the trace. -/
def reconnectTrace : Nat → ClientState → ClientState × List Effect
  | 0, s => (s, [])
  | n + 1, s =>
    let r := reconnect .failure s
    let r2 := reconnectTrace n r.state
    (r2.1, r.effects ++ r2.2)

/-! ## Receive-loop facts -/

theorem handle_command_m_ok {cmd : Json} {effs : List Effect}
    (h : handle_command_m cmd = .ok effs) : effs = [Effect.log] := by
  cases cmd <;> simp [handle_command_m] at h <;> simp [h.symm]

theorem processFrames_no_close (frames : List (List Char)) (s : ClientState) :
    Effect.closeTransport ∉ (processFrames frames s).effects := by
  induction frames generalizing s with
  | nil => simp [processFrames]
  | cons f fs ih =>
    rcases hdec : decodeJson f with _ | cmd
    · simp [processFrames, hdec]
      exact ih s
    · rcases hm : handle_command_m cmd with effs | m
      · have heffs := handle_command_m_ok hm
        subst heffs
        simp [processFrames, hdec, hm]
        exact ih s
      · simp [processFrames, hdec, hm]

theorem processFrames_no_handler (frames : List (List Char)) (s : ClientState)
    (t : String) : Effect.invokeHandler t ∉ (processFrames frames s).effects := by
  induction frames generalizing s with
  | nil => simp [processFrames]
  | cons f fs ih =>
    rcases hdec : decodeJson f with _ | cmd
    · simp [processFrames, hdec]
      exact ih s
    · rcases hm : handle_command_m cmd with effs | m
      · have heffs := handle_command_m_ok hm
        subst heffs
        simp [processFrames, hdec, hm]
        exact ih s
      · simp [processFrames, hdec, hm]

theorem processFrames_no_connect (frames : List (List Char)) (s : ClientState) :
    countConnects (processFrames frames s).effects = 0 := by
  induction frames generalizing s with
  | nil => simp [processFrames, countConnects]
  | cons f fs ih =>
    rcases hdec : decodeJson f with _ | cmd
    · simp [processFrames, hdec, countConnects] at ih ⊢
      exact ih s
    · rcases hm : handle_command_m cmd with effs | m
      · have heffs := handle_command_m_ok hm
        subst heffs
        simp [processFrames, hdec, hm, countConnects] at ih ⊢
        exact ih s
      · simp [processFrames, hdec, hm, countConnects]

theorem processFrames_no_sleep (frames : List (List Char)) (s : ClientState) :
    totalSleep (processFrames frames s).effects = 0 := by
  induction frames generalizing s with
  | nil => simp [processFrames, totalSleep]
  | cons f fs ih =>
    rcases hdec : decodeJson f with _ | cmd
    · simp [processFrames, hdec, totalSleep]
      exact ih s
    · rcases hm : handle_command_m cmd with effs | m
      · have heffs := handle_command_m_ok hm
        subst heffs
        simp [processFrames, hdec, hm, totalSleep]
        exact ih s
      · simp [processFrames, hdec, hm, totalSleep]

theorem processFrames_aborted_running (frames : List (List Char)) (s : ClientState)
    (h : (processFrames frames s).aborted = true) :
    (processFrames frames s).state.running = false := by
  induction frames generalizing s with
  | nil => simp [processFrames] at h
  | cons f fs ih =>
    rcases hdec : decodeJson f with _ | cmd
    · simp [processFrames, hdec] at h ⊢
      exact ih s h
    · rcases hm : handle_command_m cmd with effs | m
      · have heffs := handle_command_m_ok hm
        subst heffs
        simp [processFrames, hdec, hm] at h ⊢
        exact ih s h
      · simp [processFrames, hdec, hm]

/-- **C7.** A frame whose content is not valid JSON is logged and skipped:
the rest of the frames are processed exactly as if the bad frame were
absent, the loop is not terminated by it, and the receive loop never
closes the connection. -/
theorem malformed_frame_skipped (bad : List Char) (rest : List (List Char))
    (s : ClientState) (h : decodeJson bad = none) :
    processFrames (bad :: rest) s =
      ⟨(processFrames rest s).state, .log :: (processFrames rest s).effects,
        (processFrames rest s).handled, (processFrames rest s).aborted⟩ ∧
    (∀ frames s2, Effect.closeTransport ∉ (processFrames frames s2).effects) := by
  constructor
  · simp [processFrames, h]
  · exact processFrames_no_close

/-- **C7, witness.** The malformed frame `"{"` is dropped with a log
entry, the loop neither stops nor touches the connection. -/
theorem malformed_frame_skipped_witness :
    processFrames [['{']] initClient = ⟨initClient, [Effect.log], [], false⟩ := by
  have h := (malformed_frame_skipped ['{'] [] initClient rfl).1
  simpa [processFrames] using h

/-- **C8.** A well-formed object frame matches no handler in the shipped
dispatcher (the `handle_command` stub registers none): it is logged and
dropped without invoking any handler and without raising, the loop
continues with the remaining frames, and the receive loop neither
invokes handlers nor closes the connection on any input. -/
theorem unmatched_type_dropped (frame : List Char) (fields : List (String × Json))
    (rest : List (List Char)) (s : ClientState)
    (h : decodeJson frame = some (Json.obj fields)) :
    handle_command_m (Json.obj fields) = .ok [Effect.log] ∧
    processFrames (frame :: rest) s =
      ⟨(processFrames rest s).state, .log :: .log :: (processFrames rest s).effects,
        Json.obj fields :: (processFrames rest s).handled,
        (processFrames rest s).aborted⟩ ∧
    (∀ t frames s2, Effect.invokeHandler t ∉ (processFrames frames s2).effects) ∧
    (∀ frames s2, Effect.closeTransport ∉ (processFrames frames s2).effects) := by
  refine ⟨rfl, ?_, fun t frames s2 => processFrames_no_handler frames s2 t,
    processFrames_no_close⟩
  simp [processFrames, h, handle_command_m]

/-- **C8, witness.** The frame `{"type":"unknown"}` decodes, is handled
by the stub with a log only, and the loop continues. -/
theorem unmatched_type_dropped_witness :
    processFrames
        [['{', '"', 't', 'y', 'p', 'e', '"', ':', '"', 'u', 'n', 'k', 'n', 'o', 'w', 'n', '"', '}']]
        initClient =
      ⟨initClient, [Effect.log, Effect.log],
        [Json.obj [("type", Json.str "unknown")]], false⟩ := by
  have h := (unmatched_type_dropped
    ['{', '"', 't', 'y', 'p', 'e', '"', ':', '"', 'u', 'n', 'k', 'n', 'o', 'w', 'n', '"', '}']
    [("type", Json.str "unknown")] [] initClient rfl).2.1
  simpa [processFrames] using h

/-! ## Send-path facts -/

/-- A client holding a live (unclosed) socket. -/
def connectedClient : ClientState :=
  { initClient with websocket := some ⟨false⟩, running := true }

/-- **C1, counterexample.** Called with no websocket present (and a
transport that refuses the connection), `send_message` does not return a
not-connected error immediately: its trace contains a connection attempt
of its own, refuting "does not itself attempt to connect or reconnect". -/
theorem send_message_attempts_connect_counterexample :
    Effect.connectAttempt ∈
      (send_message ⟨.failure, .delivered, "T"⟩ initClient "error" (Json.obj [])).effects ∧
    (send_message ⟨.failure, .delivered, "T"⟩ initClient "error" (Json.obj [])).returned
      = false := by
  decide

/-- **C1, amended.** When the manager is not connected, `send_message`
first attempts to connect itself (lines 62–65).  If that inline connect
fails it returns `False` — a plain failure result, not a distinguished
not-connected error — and writes nothing; if the inline connect succeeds
and the transport accepts, the frame is written and it returns `True`. -/
theorem send_message_not_connected (env : SendEnv) (s : ClientState)
    (t : String) (d : Json) (h : notConnected s = true) :
    Effect.connectAttempt ∈ (send_message env s t d).effects ∧
    (env.connectOutcome = .failure →
      (send_message env s t d).returned = false ∧
      ∀ frame, Effect.wsSendFrame frame ∉ (send_message env s t d).effects) ∧
    (env.connectOutcome = .success → env.sendOutcome = .delivered →
      (send_message env s t d).returned = true ∧
      Effect.wsSendFrame (encode ⟨t, d, env.now⟩) ∈ (send_message env s t d).effects) := by
  obtain ⟨co, so, now⟩ := env
  cases co <;> cases so <;>
    simp [send_message, send_body, h, connect]

/-- **C1, witness.** Disconnected client, refused connection: the trace
contains a connect attempt and the call returns `False`. -/
theorem send_message_not_connected_witness :
    notConnected initClient = true ∧
    Effect.connectAttempt ∈
      (send_message ⟨.failure, .delivered, "T"⟩ initClient "error" (Json.obj [])).effects ∧
    (send_message ⟨.failure, .delivered, "T"⟩ initClient "error" (Json.obj [])).returned
      = false := by
  have h := send_message_not_connected ⟨.failure, .delivered, "T"⟩ initClient "error"
    (Json.obj []) rfl
  exact ⟨rfl, h.1, (h.2.1 rfl).1⟩

/-! ## Receive-loop termination and reconnection -/

/-- **C2, counterexample.** The receive loop ends with the server closing
the connection while the manager was not told to stop: the state becomes
disconnected (`running = False`) but the entire trace is a single log
entry — no connection attempt and no backoff sleep — refuting that the
manager "autonomously begins Reconnecting". -/
theorem listen_no_reconnect_counterexample :
    (listen_for_commands [] .connectionClosed connectedClient).state.running = false ∧
    (listen_for_commands [] .connectionClosed connectedClient).effects = [Effect.log] ∧
    countConnects (listen_for_commands [] .connectionClosed connectedClient).effects
      = 0 := by
  decide

/-- **C2, amended.** On receive-loop termination the manager never begins
reconnecting: the loop's trace contains no connection attempt and no
backoff sleep, on `ConnectionClosed` or any other error it merely sets
`running = False` (and an in-loop dispatch exception also only sets
`running = False`); on a clean iterator end it does not even change
`running`.  Reconnection happens only when a later `send_message` finds
the socket closed, or if external code calls `reconnect`. -/
theorem listen_for_commands_no_reconnect (frames : List (List Char))
    (ending : LoopEnd) (s : ClientState) :
    countConnects (listen_for_commands frames ending s).effects = 0 ∧
    totalSleep (listen_for_commands frames ending s).effects = 0 ∧
    (ending ≠ LoopEnd.cleanEnd →
      (listen_for_commands frames ending s).state.running = false) ∧
    ((listen_for_commands frames ending s).aborted = true →
      (listen_for_commands frames ending s).state.running = false) ∧
    (ending = LoopEnd.cleanEnd → (processFrames frames s).aborted = false →
      (listen_for_commands frames ending s).state = (processFrames frames s).state) := by
  have hc := processFrames_no_connect frames s
  have hs := processFrames_no_sleep frames s
  have ha := processFrames_aborted_running frames s
  rcases hab : (processFrames frames s).aborted with _ | _
  · cases ending <;>
      simp_all [listen_for_commands, countConnects, totalSleep,
        List.countP_append] <;>
      simp [totalSleep_append, hs, totalSleep]
  · cases ending <;> simp_all [listen_for_commands]

/-- **C2, witness.** Connection closed by the server: `running` becomes
`False`, and the loop makes no reconnection attempt. -/
theorem listen_for_commands_no_reconnect_witness :
    countConnects (listen_for_commands [] .connectionClosed connectedClient).effects
        = 0 ∧
    (listen_for_commands [] .connectionClosed connectedClient).state.running
        = false := by
  have h := listen_for_commands_no_reconnect [] .connectionClosed connectedClient
  exact ⟨h.1, h.2.2.1 (by decide)⟩

/-! ## Reconnection policy -/

/-- **C3.** (i) With `k - 1` failures recorded and `k` within the limit,
`reconnect` sleeps exactly `reconnect_delay * k` before attempt `k`.
(ii) Every successful `connect` resets the attempt counter to 0.
(iii) Scenario, at the default base delay of 5 s: the initial `connect`
fails, reconnection attempt 1 fails after sleeping `1 * 5` s, attempt 2
succeeds after sleeping `2 * 5` s; the manager is connected, the total
backoff is `1 * 5 + 2 * 5 = 15` s, and the counter is back at 0. -/
theorem reconnect_backoff_linear (s : ClientState) (out : ConnectOutcome)
    (hk : s.reconnect_attempts < s.max_reconnect_attempts) :
    totalSleep (reconnect out s).effects =
        s.reconnect_delay * (s.reconnect_attempts + 1) ∧
    (∀ s2, (connect .success s2).state.reconnect_attempts = 0) ∧
    (let c0 := connect .failure initClient
     let r1 := reconnect .failure c0.state
     let r2 := reconnect .success r1.state
     c0.returned = false ∧ r1.returned = false ∧ r2.returned = true ∧
       totalSleep r1.effects = 1 * 5 ∧ totalSleep r2.effects = 2 * 5 ∧
       notConnected r2.state = false ∧ r2.state.reconnect_attempts = 0) := by
  refine ⟨?_, fun s2 => rfl, by decide⟩
  cases out <;> simp [reconnect, hk, connect, totalSleep]

/-- **C3, witness.** From a fresh client (counter 0, limit 10, base 5 s),
the first reconnection attempt sleeps `5 * 1` seconds. -/
theorem reconnect_backoff_linear_witness :
    initClient.reconnect_attempts < initClient.max_reconnect_attempts ∧
    totalSleep (reconnect .failure initClient).effects =
      initClient.reconnect_delay * (initClient.reconnect_attempts + 1) := by
  exact ⟨by decide, (reconnect_backoff_linear initClient .failure (by decide)).1⟩

theorem reconnectTrace_count (n : Nat) (s : ClientState) :
    countConnects (reconnectTrace n s).2 =
      min n (s.max_reconnect_attempts - s.reconnect_attempts) := by
  induction n generalizing s with
  | zero => simp [reconnectTrace, countConnects]
  | succ n ih =>
    by_cases h : s.reconnect_attempts < s.max_reconnect_attempts
    · have ih2 := ih { s with reconnect_attempts := s.reconnect_attempts + 1 }
      simp only [reconnectTrace, reconnect, if_pos h, connect]
      simp [countConnects, List.countP_append] at ih2 ⊢
      rw [ih2]
      omega
    · have ih2 := ih s
      simp only [reconnectTrace, reconnect, if_neg h, connect]
      simp [countConnects, List.countP_append] at ih2 ⊢
      rw [ih2]
      omega

/-- **C4.** (i) Starting from a zeroed attempt counter, `n` successive
`reconnect` calls against an always-failing transport make exactly
`min n N` connection attempts, where `N = max_reconnect_attempts` — so
after `N` failures no further attempt is ever made.  (ii) At the limit,
`reconnect` is a no-op that reports failure upward: it returns `False`
with no attempt, no sleep, and unchanged state. -/
theorem reconnect_gives_up (s : ClientState) (n : Nat)
    (h0 : s.reconnect_attempts = 0) :
    countConnects (reconnectTrace n s).2 = min n s.max_reconnect_attempts ∧
    (∀ out s2, s2.max_reconnect_attempts ≤ s2.reconnect_attempts →
      reconnect out s2 = ⟨s2, false, [Effect.log]⟩) := by
  constructor
  · rw [reconnectTrace_count, h0]
    simp
  · intro out s2 hle
    simp [reconnect, Nat.not_lt.mpr hle]

/-- **C4, witness.** With `max_attempts = 3` and a transport that always
fails, ten successive `reconnect` calls make exactly 3 connection
attempts — never a 4th. -/
theorem reconnect_gives_up_witness :
    countConnects
        (reconnectTrace 10 { initClient with max_reconnect_attempts := 3 }).2 = 3 := by
  have h := (reconnect_gives_up { initClient with max_reconnect_attempts := 3 } 10 rfl).1
  simpa using h

/-! ## Exception safety -/

/-- **C5.** With the Python exception flow explicit, neither `connect`
nor `send_message` can finish with an uncaught exception: every raise
site (the transport calls, and attribute access on an absent socket)
sits inside a `try`/`except Exception` that converts the failure into a
`False` return value. -/
theorem transport_errors_never_escape :
    (∀ out s, (connect_m out s).isOk = true) ∧
    (∀ env s t d, (send_message_m env s t d).isOk = true) := by
  constructor
  · intro out s
    rw [connect_m_eq]
    rfl
  · intro env s t d
    rw [send_message_m_eq]
    rfl

/-! ## No producer-side validation -/

/-- **C9.** `send_license_plate_detection` forwards any payload verbatim:
for every JSON payload — in particular one whose `confidence` lies
outside `[0, 1]` — sending on a live connection succeeds, and the frame
written is exactly the encoding of the unmodified payload; nothing is
clamped, validated, or rejected. -/
theorem send_detection_no_validation (env : SendEnv) (s : ClientState)
    (d : Json) (hconn : notConnected s = false)
    (hok : env.sendOutcome = .delivered) :
    send_license_plate_detection env s d =
      ⟨s, true,
        [Effect.wsSendFrame (encode ⟨"license_plate_detected", d, env.now⟩),
          Effect.log]⟩ := by
  rcases hws : s.websocket with _ | ws
  · simp [notConnected, hws] at hconn
  · simp [send_license_plate_detection, send_message, hconn, send_body, hws, hok]

/-- **C9, witness.** A detection payload with confidence 2.5 (outside
`[0, 1]`) is sent successfully and unmodified. -/
theorem send_detection_no_validation_witness :
    notConnected connectedClient = false ∧
    send_license_plate_detection ⟨.success, .delivered, "T"⟩ connectedClient
        (Json.obj [("confidence", Json.num 25 1)]) =
      ⟨connectedClient, true,
        [Effect.wsSendFrame (encode ⟨"license_plate_detected",
            Json.obj [("confidence", Json.num 25 1)], "T"⟩),
          Effect.log]⟩ :=
  ⟨rfl, send_detection_no_validation ⟨.success, .delivered, "T"⟩ connectedClient
    (Json.obj [("confidence", Json.num 25 1)]) rfl rfl⟩

/-! ## Disconnect idempotence -/

/-- **C10, counterexample.** `SimpleLicensePlateClient.disconnect` called
on a client whose websocket is present but already closed still performs
a close operation — refuting that a second disconnect on an
already-disconnected client "performs no close operation". -/
theorem simple_disconnect_closes_again_counterexample :
    Effect.closeTransport ∈
      (simple_disconnect ⟨some ⟨true⟩⟩).2 := by
  decide

/-- **C10, amended.** The advanced client's `disconnect` is idempotent as
claimed: after one call `running = False` and the socket is absent or
closed, and a second call performs no operation and leaves the state
unchanged.  The simple client's `disconnect` raises nothing and leaves an
already-disconnected state unchanged, but it skips the close call only
when the websocket is absent: with the websocket present-but-closed it
issues `close()` again (a transport-level no-op). -/
theorem disconnect_idempotent (s : ClientState) (t : SimpleClientState) :
    (disconnect s).1.running = false ∧
    notConnected (disconnect s).1 = true ∧
    disconnect (disconnect s).1 = ((disconnect s).1, []) ∧
    (simple_disconnect (simple_disconnect t).1).1 = (simple_disconnect t).1 ∧
    (t.websocket = none → simple_disconnect (simple_disconnect t).1 =
      ((simple_disconnect t).1, [])) ∧
    (∀ ws, t.websocket = some ws → simple_disconnect (simple_disconnect t).1 =
      ((simple_disconnect t).1, [Effect.closeTransport, Effect.log])) := by
  obtain ⟨tws⟩ := t
  obtain ⟨ws, running, ra, mra, rd⟩ := s
  refine ⟨?_, ?_, ?_, ?_, ?_, ?_⟩
  · rcases ws with _ | ⟨_ | _⟩ <;> simp [disconnect]
  · rcases ws with _ | ⟨_ | _⟩ <;> simp [disconnect, notConnected]
  · rcases ws with _ | ⟨_ | _⟩ <;> simp [disconnect]
  · rcases tws with _ | ⟨tclosed⟩ <;> simp [simple_disconnect]
  · intro h
    simp only at h
    subst h
    simp [simple_disconnect]
  · intro ws2 h
    simp only at h
    subst h
    simp [simple_disconnect]

/-- **C10, witness.** A connected advanced client: one `disconnect` stops
it and closes the socket, a second is a no-op; a simple client with a
closed-but-present socket: a second `disconnect` leaves the state
unchanged (though it closes again). -/
theorem disconnect_idempotent_witness :
    (disconnect connectedClient).1.running = false ∧
    disconnect (disconnect connectedClient).1 =
      ((disconnect connectedClient).1, []) ∧
    simple_disconnect (simple_disconnect ⟨some ⟨false⟩⟩).1 =
      ((simple_disconnect ⟨some ⟨false⟩⟩).1,
        [Effect.closeTransport, Effect.log]) := by
  have h := disconnect_idempotent connectedClient ⟨some ⟨false⟩⟩
  exact ⟨h.1, h.2.2.1, h.2.2.2.2.2 ⟨false⟩ rfl⟩

end VehicleManage
